import Mathlib

/-!
Verification of the scrape-orchestration and offer-reconciliation pipeline
of the AI-powered e-commerce price-comparison system, together with its
React frontend helpers.  Frontend functions are translated directly from
`frontend/src/App.jsx` and `frontend/src/components/WatchlistPage.jsx`;
backend pipeline stages whose Python sources are not part of this
repository snapshot are modelled from the specification, as indicated in
their doc comments.
-/

/-! ### Frontend: status dot classifier (`App.jsx`, `getStatusDotClass`) -/

/-- Translated from `frontend/src/App.jsx` lines 29-36: maps a SiteStatus
status string to a CSS class for the coloured status dot; any string not
matched by the five explicit cases falls through to the pending class. -/
def getStatusDotClass (status : String) : String :=
  if status = "ok" then "site-status__dot--ok"
  else if status = "error" then "site-status__dot--error"
  else if status = "timeout" then "site-status__dot--timeout"
  else if status = "bot_challenge" then "site-status__dot--bot"
  else if status = "no_results" then "site-status__dot--no_results"
  else "site-status__dot--pending"

/-- The spec's fixed enumeration of SiteStatus status values. -/
def specStatusValues : List String :=
  ["ok", "error", "timeout", "bot_challenge", "no_results", "selector_error"]

/-! ### Frontend: Marketplace Status panel filter (`App.jsx`, `App`) -/

/-- SiteStatus record as consumed by the frontend (a JSON object with a
marketplace key, a status string and a listing count). -/
structure SiteStatusFE where
  marketplace_key : String
  status : String
  listings_found : Nat
  deriving DecidableEq

/-- Translated from `frontend/src/App.jsx` lines 462-463: the Marketplace
Status panel renders `result.site_statuses` filtered by
`s.listings_found > 0 || s.status === 'ok'`. -/
def visibleSiteStatuses (statuses : List SiteStatusFE) : List SiteStatusFE :=
  statuses.filter fun s => decide (0 < s.listings_found) || decide (s.status = "ok")

/-! ### Frontend: watchlist price badge (`WatchlistPage.jsx`, `priceBadge`) -/

/-- Result of `priceBadge`: a display label and a CSS class suffix. -/
structure PriceBadge where
  label : String
  cls : String
  deriving DecidableEq

/-- Translated from `frontend/src/components/WatchlistPage.jsx` lines 24-35:
compares the saved price of a watchlist item with the current price and
produces a badge.  JS numbers are modelled as rationals and `Math.round`
as `round` (both round half-way cases up). -/
def priceBadge (saved current : Option ℚ) : PriceBadge :=
  match saved, current with
  | none, _ => ⟨"—", "unchanged"⟩
  | _, none => ⟨"—", "unchanged"⟩
  | some s, some c =>
    if c < s then
      let pct : ℤ := round (((s - c) / s) * 100)
      ⟨s!"↓ {pct}% cheaper", "cheaper"⟩
    else if s < c then
      let pct : ℤ := round (((c - s) / s) * 100)
      ⟨s!"↑ {pct}% pricier", "pricier"⟩
    else ⟨"Unchanged", "unchanged"⟩

/-! ### Backend data model (spec section 3) -/

/-- Terminal status values of a per-site scrape, the spec's fixed
enumeration for `SiteStatus.status`. -/
inductive ScrapeStatus where
  | ok
  | error
  | timeout
  | bot_challenge
  | no_results
  | selector_error
  deriving DecidableEq

/-- RawListing: per-site raw extraction before normalization
(site key plus raw text fields). -/
structure RawListing where
  site : String
  title : String
  price_text : String
  discount_text : String
  coupon_text : String
  delivery_text : String
  deriving DecidableEq

/-- SiteStatus: terminal per-site report of a scrape attempt. -/
structure SiteStatus where
  marketplace_key : String
  status : ScrapeStatus
  listings_found : Nat
  elapsed_ms : Nat
  error_message : Option String
  deriving DecidableEq

/-- NormalizedOffer: a typed offer produced by the Extractor and scored by
the Matcher.  `scrape_index` records the scrape order used by the
Ranker's final tie-break. -/
structure NormalizedOffer where
  platform : String
  title : String
  base_price : ℚ
  discount : ℚ
  coupon : ℚ
  effective_price : ℚ
  delivery_days_max : Option Nat
  match_score : ℚ
  scrape_index : Nat
  deriving DecidableEq

/-- SiteTarget: a configured marketplace, read-only during a run. -/
structure SiteTarget where
  key : String
  name : String
  base_url : String
  search_template : String
  deriving DecidableEq

/-! ### Extractor (spec section 4.4) -/

/-- Modelled from the spec: locale-formatted numeral parsing performed by
the Extractor, whose Python source (`app/agents/extractor.py`) is not in
the repository snapshot.  All digits of the raw text are read, ignoring
currency symbols and locale separators; a text with no digit parses to
`none` (the field is reported absent, never guessed). -/
def parseNumeral (s : String) : Option Nat :=
  let ds := s.toList.filter Char.isDigit
  if ds.isEmpty then none
  else some (ds.foldl (fun n c => 10 * n + (c.toNat - 48)) 0)

/-- Modelled from the spec: the Extractor stage (`app/agents/extractor.py`
missing from the snapshot).  It parses the current price, an instant
discount and a coupon amount from the raw listing text and computes
`effective_price = max 0 (base_price - discount - coupon)`; a listing
whose price cannot be parsed yields no offer. -/
def extractOffer (idx : Nat) (r : RawListing) : Option NormalizedOffer :=
  match parseNumeral r.price_text with
  | none => none
  | some p =>
    let base : ℚ := (p : ℚ)
    let d : ℚ := (((parseNumeral r.discount_text).getD 0 : Nat) : ℚ)
    let cp : ℚ := (((parseNumeral r.coupon_text).getD 0 : Nat) : ℚ)
    some
      { platform := r.site
        title := r.title
        base_price := base
        discount := d
        coupon := cp
        effective_price := max 0 (base - d - cp)
        delivery_days_max := parseNumeral r.delivery_text
        match_score := 0
        scrape_index := idx }

/-- A concrete raw listing used to evaluate the Extractor. -/
def sampleRaw : RawListing :=
  { site := "amazon"
    title := "iPhone 15 128GB"
    price_text := "Rs. 64,999"
    discount_text := ""
    coupon_text := "Save 500"
    delivery_text := "2 days" }

/-! ### Orchestrator (spec section 4.1) -/

/-- Modelled from the spec: the outcome of one SiteAgent task as observed
by the Orchestrator (`app/scraping/orchestrator.py` and `_scrape_one` are
not in the repository snapshot).  A task either completes with a terminal
SiteStatus, dies with an uncaught exception, or hits the per-site
timeout. -/
inductive TaskOutcome where
  | completed (listings : List RawListing) (st : SiteStatus)
  | crashed (msg : String)
  | timedOut (elapsed : Nat)
  deriving DecidableEq

/-- Modelled from the spec: `_scrape_one` always returns a proper
SiteStatus — an uncaught failure is converted to a terminal `error`
status and a timeout to a `timeout` status, never dropped. -/
def scrapeOne (t : SiteTarget) (out : TaskOutcome) :
    List RawListing × SiteStatus :=
  match out with
  | .completed ls st => (ls, st)
  | .crashed msg => ([], ⟨t.key, .error, 0, 0, some msg⟩)
  | .timedOut e => ([], ⟨t.key, .timeout, 0, e, none⟩)

/-- Modelled from the spec: the Orchestrator fans out one task per
selected SiteTarget and gathers every per-site status and all raw
listings. -/
def orchestrate (outcome : SiteTarget → TaskOutcome) :
    List SiteTarget → List SiteStatus × List RawListing
  | [] => ([], [])
  | t :: rest =>
    let r := scrapeOne t (outcome t)
    let acc := orchestrate outcome rest
    (r.2 :: acc.1, r.1 ++ acc.2)

/-! ### SiteAgent state machine (spec section 4.2) -/

/-- Phases of the SiteAgent state machine:
INIT → NAVIGATE → WAIT_FOR_CONTENT → DETECT_CHALLENGE →
(RESET_CONTEXT → NAVIGATE, once) → EXTRACT → DONE | FAILED. -/
inductive AgentPhase where
  | init
  | navigate
  | waitContent
  | detectChallenge
  | resetContext
  | extract
  | done
  | failed
  deriving DecidableEq

/-- Modelled from the spec: the page environment a single SiteAgent run
observes (`app/scraping/base.py` is not in the repository snapshot):
whether a bot challenge is detected on the first navigation, whether one
is detected on the retry navigation, and the listings the page yields
when extraction is reached. -/
structure AgentEnv where
  challengeOnFirst : Bool
  challengeOnRetry : Bool
  listings : List RawListing
  deriving DecidableEq

/-- State of a SiteAgent run: current phase, navigation attempt number,
number of context resets performed, terminal status once decided, and the
count of extracted listings. -/
structure AgentState where
  phase : AgentPhase
  attempt : Nat
  retries : Nat
  status : Option ScrapeStatus
  found : Nat
  deriving DecidableEq

/-- Modelled from the spec: one transition of the SiteAgent state
machine.  A detected challenge with no reset spent discards the context
(RESET_CONTEXT) and renavigates; a detection with the single reset
already spent is terminal `bot_challenge`.  Extraction terminates with
`ok` when listings were found and `no_results` otherwise. -/
def agentStep (env : AgentEnv) (s : AgentState) : AgentState :=
  match s.phase with
  | .init => { s with phase := .navigate }
  | .navigate => { s with phase := .waitContent }
  | .waitContent => { s with phase := .detectChallenge }
  | .detectChallenge =>
    let detected :=
      if s.attempt = 0 then env.challengeOnFirst else env.challengeOnRetry
    if detected then
      if s.retries = 0 then { s with phase := .resetContext, retries := 1 }
      else { s with phase := .failed, status := some .bot_challenge }
    else { s with phase := .extract }
  | .resetContext => { s with phase := .navigate, attempt := s.attempt + 1 }
  | .extract =>
    { s with
        phase := .done
        status := some (if env.listings.isEmpty then .no_results else .ok)
        found := env.listings.length }
  | .done => s
  | .failed => s

/-- Initial SiteAgent state. -/
def agentInit : AgentState := ⟨.init, 0, 0, none, 0⟩

/-- Iterate the SiteAgent step function. -/
def agentRunAux (env : AgentEnv) : Nat → AgentState → AgentState
  | 0, s => s
  | n + 1, s => agentRunAux env n (agentStep env s)

/-- A full SiteAgent run: twelve steps always reach a terminal phase. -/
def runAgent (env : AgentEnv) : AgentState := agentRunAux env 12 agentInit

/-! ### Matcher deduplication (spec section 4.5) -/

/-- The Matcher's dedup key: (platform, effective_price). -/
def dedupKey (o : NormalizedOffer) : String × ℚ :=
  (o.platform, o.effective_price)

/-- Modelled from the spec: the deduplication pass of the Matcher
(`app/agents/matcher.py` is not in the repository snapshot), written in
the Python seen-set style: an offer is kept only when its dedup key has
not been seen before. -/
def dedupeAux (seen : List (String × ℚ)) :
    List NormalizedOffer → List NormalizedOffer
  | [] => []
  | o :: rest =>
    if dedupKey o ∈ seen then dedupeAux seen rest
    else o :: dedupeAux (dedupKey o :: seen) rest

/-- Modelled from the spec: after scoring, the Matcher deduplicates
offers by (platform, effective_price), keeping the first-seen offer. -/
def dedupeOffers (l : List NormalizedOffer) : List NormalizedOffer :=
  dedupeAux [] l

/-! ### Matcher scoring (spec section 4.5) -/

/-- Parsed query attributes produced by the Planner. -/
structure QueryAttrs where
  brand : Option String
  model : Option String
  storage : Option String
  color : Option String
  deriving DecidableEq

/-- Split a character stream into whitespace-separated tokens,
accumulating the current token in reverse. -/
def tokenizeAux : List Char → List Char → List String
  | [], acc => if acc.isEmpty then [] else [String.mk acc.reverse]
  | c :: cs, acc =>
    if c = ' ' then
      if acc.isEmpty then tokenizeAux cs []
      else String.mk acc.reverse :: tokenizeAux cs []
    else tokenizeAux cs (c :: acc)

/-- Lower-cased whitespace tokens of a text. -/
def tokensOf (s : String) : List String :=
  tokenizeAux (s.toList.map Char.toLower) []

/-- Modelled from the spec: accessory keywords whose presence in a title
hard-rejects the listing when the query target is not an accessory. -/
def accessoryKeywords : List String :=
  ["case", "cover", "charger", "cable", "tempered"]

/-- A title is accessory-like when one of its tokens is an accessory
keyword. -/
def isAccessoryTitle (title : String) : Bool :=
  (tokensOf title).any fun t => accessoryKeywords.contains t

/-- Tokens of a text that contain at least one digit (model/variant
identifiers such as generation numbers or storage sizes). -/
def digitTokens (s : String) : List String :=
  (tokensOf s).filter fun t => t.toList.any Char.isDigit

/-- The query attributes joined back into one text. -/
def queryText (q : QueryAttrs) : String :=
  String.intercalate " " ([q.brand, q.model, q.storage, q.color].filterMap id)

/-- Modelled from the spec: hard-reject rule (a) — when the query
specifies a concrete model, a numerically distinct model/variant
identifier in the title (a digit token not occurring among the query's
digit tokens) forces the score to 0. -/
def modelMismatch (q : QueryAttrs) (title : String) : Bool :=
  match q.model with
  | none => false
  | some _ =>
    (digitTokens title).any fun t => !(digitTokens (queryText q)).contains t

/-- Modelled from the spec: the Matcher's hard-reject rules, overriding
all other scoring. -/
def hardReject (q : QueryAttrs) (title : String) : Bool :=
  isAccessoryTitle title || modelMismatch q title

/-- Modelled from the spec: one attribute sub-score of the deterministic
pass, in [0,1]: full credit when the attribute is absent from the query
or all its tokens occur in the title, no credit otherwise. -/
def attrSubScore (a : Option String) (titleTokens : List String) : ℚ :=
  match a with
  | none => 1
  | some v => if (tokensOf v).all (fun t => titleTokens.contains t) then 1 else 0

/-- Modelled from the spec: the deterministic weighted overlap of brand,
model, storage and color against the query attributes (weights sum to
1). -/
def deterministicScore (q : QueryAttrs) (title : String) : ℚ :=
  let tks := tokensOf title
  3 / 10 * attrSubScore q.brand tks + 2 / 5 * attrSubScore q.model tks +
    1 / 5 * attrSubScore q.storage tks + 1 / 10 * attrSubScore q.color tks

/-- Clamp a rational into the unit interval. -/
def clampUnit (x : ℚ) : ℚ := max 0 (min 1 x)

/-- Modelled from the spec: the Matcher's score for one listing title.
Hard-reject forces 0; a deterministic score in the uncertain middle band
(0.3 to 0.75) is replaced by the external semantic-matching capability's
judgment, clamped to the match_score range [0,1]; otherwise the
deterministic score stands. -/
def matchScore (oracle : String → QueryAttrs → ℚ) (q : QueryAttrs)
    (title : String) : ℚ :=
  if hardReject q title then 0
  else
    let d := deterministicScore q title
    if 3 / 10 ≤ d ∧ d ≤ 3 / 4 then clampUnit (oracle title q) else d

/-- Translated from `frontend/src/App.jsx` line 227 (`handleSearch`): the
frontend sends `preferences: { mode, min_match_score: 0.4 }` with every
compare request. -/
def frontendMinMatchScore : ℚ := 4 / 10

/-- Modelled from the spec: the Matcher stage — score every offer,
deduplicate by (platform, effective_price), and let only offers at or
above the configured minimum match_score advance. -/
def runMatcher (oracle : String → QueryAttrs → ℚ) (q : QueryAttrs)
    (threshold : ℚ) (offers : List NormalizedOffer) :
    List NormalizedOffer :=
  let scored := offers.map fun o =>
    { o with match_score := matchScore oracle q o.title }
  (dedupeOffers scored).filter fun o => decide (threshold ≤ o.match_score)

/-! ### Ranker (spec section 4.6) -/

/-- The user-selected ranking objective. -/
inductive Mode where
  | balanced
  | cheapest
  | fastest
  | reliable
  deriving DecidableEq

/-- Modelled from the spec: the static per-platform trust table
(`app/agents/ranker.py` is not in the repository snapshot; exact weight
tuning is a spec non-goal). -/
def trustScore (platform : String) : ℚ :=
  if platform = "amazon" then 9 / 10
  else if platform = "flipkart" then 17 / 20
  else if platform = "croma" then 4 / 5
  else 7 / 10

/-- Modelled from the spec: delivery-speed score, faster = higher; an
unknown delivery time scores in the middle. -/
def deliveryScore (o : NormalizedOffer) : ℚ :=
  match o.delivery_days_max with
  | none => 1 / 2
  | some d => 1 / (1 + (d : ℚ))

/-- Effective prices of the matched set in ascending order. -/
def sortedPrices (l : List NormalizedOffer) : List ℚ :=
  (l.map NormalizedOffer.effective_price).insertionSort (· ≤ ·)

/-- Modelled from the spec: price score normalized against the matched
set's min/max, cheaper = higher; the set's prices are passed in sorted
order, so min is the head and max the last element. -/
def priceScoreWith (prices : List ℚ) (o : NormalizedOffer) : ℚ :=
  let lo := prices.headD 0
  let hi := prices.getLastD 0
  if hi = lo then 1 else (hi - o.effective_price) / (hi - lo)

/-- Mode weights (price, delivery, trust): the preferred criterion is
weighted high, the others low; balanced weighs all three equally. -/
def modeWeights : Mode → ℚ × ℚ × ℚ
  | .cheapest => (7 / 10, 3 / 20, 3 / 20)
  | .fastest => (3 / 20, 7 / 10, 3 / 20)
  | .reliable => (3 / 20, 3 / 20, 7 / 10)
  | .balanced => (1 / 3, 1 / 3, 1 / 3)

/-- Modelled from the spec: the mode-weighted combination of the price,
delivery and trust components. -/
def weightedScoreWith (m : Mode) (prices : List ℚ) (o : NormalizedOffer) : ℚ :=
  (modeWeights m).1 * priceScoreWith prices o +
    (modeWeights m).2.1 * deliveryScore o +
    (modeWeights m).2.2 * trustScore o.platform

/-- The Ranker's mode-weighted score of an offer within a matched set. -/
def weightedScore (m : Mode) (l : List NormalizedOffer)
    (o : NormalizedOffer) : ℚ :=
  weightedScoreWith m (sortedPrices l) o

/-- Modelled from the spec: the Ranker's lexicographic sort key — higher
weighted score first, ties broken by higher match_score, then lower
effective_price, then earlier scrape order (descending components are
negated so that the lexicographic ≤ orders them descending). -/
def rankKeyWith (m : Mode) (prices : List ℚ) (o : NormalizedOffer) :
    Lex (ℚ × Lex (ℚ × Lex (ℚ × ℚ))) :=
  toLex (-(weightedScoreWith m prices o),
    toLex (-(o.match_score),
      toLex (o.effective_price, (o.scrape_index : ℚ))))

/-- The Ranker's ordering relation over a fixed matched set. -/
def rankRel (m : Mode) (prices : List ℚ) :
    NormalizedOffer → NormalizedOffer → Prop :=
  fun a b => rankKeyWith m prices a ≤ rankKeyWith m prices b

instance rankRelDecidable (m : Mode) (prices : List ℚ) :
    DecidableRel (rankRel m prices) := fun a b =>
  inferInstanceAs (Decidable (rankKeyWith m prices a ≤ rankKeyWith m prices b))

/-- Modelled from the spec: the Ranker orders the matched set by the
mode-weighted score with the fixed deterministic tie-breaks, using a
stable insertion sort (Python's sort is stable). -/
def rankOffers (m : Mode) (l : List NormalizedOffer) :
    List NormalizedOffer :=
  l.insertionSort (rankRel m (sortedPrices l))

/-- Two offers sharing the dedup key ("amazon", 100). -/
def dupA : NormalizedOffer := ⟨"amazon", "offer one", 100, 0, 0, 100, none, 1, 0⟩

/-- A later duplicate of `dupA`'s dedup key with a different title. -/
def dupB : NormalizedOffer := ⟨"amazon", "offer two", 120, 20, 0, 100, none, 1, 1⟩

/-! ### Theorems: helper lemmas and claim theorems -/

/-- C8 counterexample: `selector_error` is one of the spec's enumerated
status values, yet `getStatusDotClass` sends it to the generic pending
fallback class rather than a status-specific class. -/
theorem getStatusDotClass_selector_error_pending :
    "selector_error" ∈ specStatusValues ∧
      getStatusDotClass "selector_error" = "site-status__dot--pending" := by
  constructor
  · simp [specStatusValues]
  · rfl

/-- C8 (amended): the five status values `ok`, `error`, `timeout`,
`bot_challenge` and `no_results` each receive a distinct status-specific
dot class, while the sixth enumerated value `selector_error` falls through
to the generic pending fallback class. -/
theorem getStatusDotClass_spec :
    getStatusDotClass "ok" = "site-status__dot--ok" ∧
    getStatusDotClass "error" = "site-status__dot--error" ∧
    getStatusDotClass "timeout" = "site-status__dot--timeout" ∧
    getStatusDotClass "bot_challenge" = "site-status__dot--bot" ∧
    getStatusDotClass "no_results" = "site-status__dot--no_results" ∧
    getStatusDotClass "selector_error" = "site-status__dot--pending" ∧
    ([ "ok", "error", "timeout", "bot_challenge", "no_results"].map
        getStatusDotClass).Nodup := by
  refine ⟨rfl, rfl, rfl, rfl, rfl, rfl, ?_⟩
  decide

/-- C9: a SiteStatus entry appears in the Marketplace Status panel iff it
occurs in `result.site_statuses` and has `listings_found > 0` or status
`ok`; consequently every zero-listing entry whose status is one of the
failure values is filtered out of the panel. -/
theorem visibleSiteStatuses_mem_iff :
    ∀ (statuses : List SiteStatusFE) (s : SiteStatusFE),
      (s ∈ visibleSiteStatuses statuses ↔
        s ∈ statuses ∧ (0 < s.listings_found ∨ s.status = "ok")) := by
  intro statuses s
  simp [visibleSiteStatuses, List.mem_filter, and_comm]

/-- C10: `priceBadge` is total and exhaustive: class `cheaper` iff both
prices are present and the current one is strictly lower, `pricier` iff
both are present and the current one is strictly higher, `unchanged` in
every other case; and in the two changed cases the displayed percentage is
`round (100 * |current - saved| / saved)`. -/
theorem priceBadge_spec :
    ∀ saved current : Option ℚ,
      ((priceBadge saved current).cls = "cheaper" ↔
        ∃ s c, saved = some s ∧ current = some c ∧ c < s) ∧
      ((priceBadge saved current).cls = "pricier" ↔
        ∃ s c, saved = some s ∧ current = some c ∧ s < c) ∧
      ((priceBadge saved current).cls ≠ "cheaper" ∧
          (priceBadge saved current).cls ≠ "pricier" →
        (priceBadge saved current).cls = "unchanged") ∧
      (∀ s c : ℚ, saved = some s → current = some c → c < s →
        (priceBadge saved current).label =
          s!"↓ {round (100 * |c - s| / s)}% cheaper") ∧
      (∀ s c : ℚ, saved = some s → current = some c → s < c →
        (priceBadge saved current).label =
          s!"↑ {round (100 * |c - s| / s)}% pricier") := by
  intro saved current
  match saved, current with
  | none, _ =>
    refine ⟨?_, ?_, ?_, ?_, ?_⟩ <;>
      simp [priceBadge]
  | some s, none =>
    refine ⟨?_, ?_, ?_, ?_, ?_⟩ <;>
      simp [priceBadge]
  | some s, some c =>
    rcases lt_trichotomy c s with h | h | h
    · have hb : priceBadge (some s) (some c) =
          ⟨s!"↓ {round (((s - c) / s) * 100)}% cheaper", "cheaper"⟩ := by
        simp [priceBadge, h]
      refine ⟨?_, ?_, ?_, ?_, ?_⟩
      · exact ⟨fun _ => ⟨s, c, rfl, rfl, h⟩, fun _ => by rw [hb]⟩
      · rw [hb]
        constructor
        · intro hcontra
          exact absurd hcontra (by simp)
        · rintro ⟨s', c', hs, hc, hlt⟩
          injection hs with hs; injection hc with hc
          subst hs; subst hc
          exact absurd hlt (not_lt.mpr (le_of_lt h))
      · rw [hb]
        rintro ⟨hcontra, -⟩
        exact absurd rfl hcontra
      · intro s' c' hs hc hlt
        injection hs with hs; injection hc with hc
        subst hs; subst hc
        rw [hb]
        have habs : |c - s| = s - c := by
          rw [abs_sub_comm]
          exact abs_of_pos (by linarith)
        have : ((s - c) / s) * 100 = 100 * |c - s| / s := by rw [habs]; ring
        rw [this]
      · intro s' c' hs hc hlt
        injection hs with hs; injection hc with hc
        subst hs; subst hc
        exact absurd h (not_lt.mpr (le_of_lt hlt))
    · subst h
      have hb : priceBadge (some c) (some c) = ⟨"Unchanged", "unchanged"⟩ := by
        simp [priceBadge]
      refine ⟨?_, ?_, ?_, ?_, ?_⟩
      · rw [hb]
        constructor
        · intro hcontra
          exact absurd hcontra (by simp)
        · rintro ⟨s', c', hs, hc, hlt⟩
          injection hs with hs; injection hc with hc
          subst hs; subst hc
          exact absurd hlt (lt_irrefl _)
      · rw [hb]
        constructor
        · intro hcontra
          exact absurd hcontra (by simp)
        · rintro ⟨s', c', hs, hc, hlt⟩
          injection hs with hs; injection hc with hc
          subst hs; subst hc
          exact absurd hlt (lt_irrefl _)
      · intro _
        rw [hb]
      · intro s' c' hs hc hlt
        injection hs with hs; injection hc with hc
        subst hs; subst hc
        exact absurd hlt (lt_irrefl _)
      · intro s' c' hs hc hlt
        injection hs with hs; injection hc with hc
        subst hs; subst hc
        exact absurd hlt (lt_irrefl _)
    · have hb : priceBadge (some s) (some c) =
          ⟨s!"↑ {round (((c - s) / s) * 100)}% pricier", "pricier"⟩ := by
        simp [priceBadge, not_lt.mpr (le_of_lt h), h]
      refine ⟨?_, ?_, ?_, ?_, ?_⟩
      · rw [hb]
        constructor
        · intro hcontra
          exact absurd hcontra (by simp)
        · rintro ⟨s', c', hs, hc, hlt⟩
          injection hs with hs; injection hc with hc
          subst hs; subst hc
          exact absurd hlt (not_lt.mpr (le_of_lt h))
      · exact ⟨fun _ => ⟨s, c, rfl, rfl, h⟩, fun _ => by rw [hb]⟩
      · rw [hb]
        rintro ⟨-, hcontra⟩
        exact absurd rfl hcontra
      · intro s' c' hs hc hlt
        injection hs with hs; injection hc with hc
        subst hs; subst hc
        exact absurd hlt (not_lt.mpr (le_of_lt h))
      · intro s' c' hs hc hlt
        injection hs with hs; injection hc with hc
        subst hs; subst hc
        rw [hb]
        have habs : |c - s| = c - s := abs_of_pos (by linarith)
        have : ((c - s) / s) * 100 = 100 * |c - s| / s := by rw [habs]; ring
        rw [this]

/-- C10 witness: evaluating `priceBadge` at saved 200 and current 150
through the main theorem. -/
theorem priceBadge_spec_witness :
    (priceBadge (some 200) (some 150)).cls = "cheaper" ∧
      (priceBadge (some 200) (some 150)).label = s!"↓ {(25 : ℤ)}% cheaper" := by
  have h := priceBadge_spec (some 200) (some 150)
  refine ⟨h.1.mpr ⟨200, 150, rfl, rfl, by norm_num⟩, ?_⟩
  have hl := h.2.2.2.1 200 150 rfl rfl (by norm_num)
  rw [hl]
  norm_num

/-- C2: every NormalizedOffer produced by the Extractor satisfies
`effective_price = max 0 (base_price - discount - coupon)` and hence
`0 ≤ effective_price ≤ base_price` (parsed discounts and coupons are
non-negative by construction). -/
theorem extractOffer_effective_price :
    ∀ (idx : Nat) (r : RawListing) (o : NormalizedOffer),
      extractOffer idx r = some o →
        o.effective_price = max 0 (o.base_price - o.discount - o.coupon) ∧
        0 ≤ o.effective_price ∧ o.effective_price ≤ o.base_price := by
  intro idx r o h
  unfold extractOffer at h
  cases hp : parseNumeral r.price_text with
  | none =>
    rw [hp] at h
    exact absurd h (by simp)
  | some p =>
    rw [hp] at h
    simp only [Option.some.injEq] at h
    subst h
    have hbase : (0 : ℚ) ≤ (p : ℚ) := Nat.cast_nonneg p
    have hd : (0 : ℚ) ≤ (((parseNumeral r.discount_text).getD 0 : Nat) : ℚ) :=
      Nat.cast_nonneg _
    have hcp : (0 : ℚ) ≤ (((parseNumeral r.coupon_text).getD 0 : Nat) : ℚ) :=
      Nat.cast_nonneg _
    refine ⟨rfl, le_max_left _ _, ?_⟩
    exact max_le hbase (by linarith)

/-- C2 witness: the Extractor evaluated on `sampleRaw` produces an offer,
and the main theorem applies to it. -/
theorem extractOffer_effective_price_witness :
    ∃ o : NormalizedOffer, extractOffer 0 sampleRaw = some o ∧
      (o.effective_price = max 0 (o.base_price - o.discount - o.coupon) ∧
        0 ≤ o.effective_price ∧ o.effective_price ≤ o.base_price) := by
  refine ⟨_, rfl, extractOffer_effective_price 0 sampleRaw _ rfl⟩

/-- C1: the pipeline returns exactly one SiteStatus per attempted
SiteTarget: the status list is precisely the per-target statuses in
order (a per-site crash or timeout still contributes its entry), and its
length equals the number of selected targets. -/
theorem orchestrate_one_status_per_target :
    ∀ (outcome : SiteTarget → TaskOutcome) (targets : List SiteTarget),
      (orchestrate outcome targets).1 =
          targets.map (fun t => (scrapeOne t (outcome t)).2) ∧
      (orchestrate outcome targets).1.length = targets.length := by
  intro outcome targets
  induction targets with
  | nil => exact ⟨rfl, rfl⟩
  | cons t rest ih =>
    refine ⟨?_, ?_⟩
    · simp only [orchestrate, List.map_cons]
      rw [ih.1]
    · simp only [orchestrate, List.length_cons, List.length_map]
      rw [ih.2]

/-- C5: the bot-challenge protocol of the SiteAgent: at most one
context-reset-and-retry ever happens; a challenge detected on both
navigations is terminal `bot_challenge` with exactly one retry; a
challenge on the first navigation followed by a clean retry on a page
with listings ends `ok` with an observed retry count of exactly 1; and
with no first-navigation challenge no retry happens at all. -/
theorem agent_bot_challenge_protocol :
    ∀ env : AgentEnv,
      (runAgent env).retries ≤ 1 ∧
      (env.challengeOnFirst = true → env.challengeOnRetry = true →
        (runAgent env).status = some .bot_challenge ∧
          (runAgent env).retries = 1) ∧
      (env.challengeOnFirst = true → env.challengeOnRetry = false →
        env.listings ≠ [] →
        (runAgent env).status = some .ok ∧ (runAgent env).retries = 1 ∧
          0 < (runAgent env).found) ∧
      (env.challengeOnFirst = false → (runAgent env).retries = 0) := by
  intro env
  obtain ⟨c1, c2, l⟩ := env
  cases c1 <;> cases c2 <;> cases l <;>
    simp [runAgent, agentRunAux, agentStep, agentInit]

/-- C5 witness: a site that detects a challenge on the first navigation,
resets, and succeeds on the retry with one listing ends `ok` with retry
count exactly 1. -/
theorem agent_bot_challenge_protocol_witness :
    (runAgent ⟨true, false, [sampleRaw]⟩).status = some .ok ∧
      (runAgent ⟨true, false, [sampleRaw]⟩).retries = 1 ∧
      0 < (runAgent ⟨true, false, [sampleRaw]⟩).found :=
  (agent_bot_challenge_protocol ⟨true, false, [sampleRaw]⟩).2.2.1 rfl rfl
    (by simp)

theorem mem_dedupeAux :
    ∀ (l : List NormalizedOffer) (seen : List (String × ℚ))
      (o : NormalizedOffer),
      o ∈ dedupeAux seen l → o ∈ l ∧ dedupKey o ∉ seen := by
  intro l
  induction l with
  | nil =>
    intro seen o h
    simp [dedupeAux] at h
  | cons a rest ih =>
    intro seen o h
    rw [dedupeAux] at h
    by_cases ha : dedupKey a ∈ seen
    · rw [if_pos ha] at h
      obtain ⟨h1, h2⟩ := ih seen o h
      exact ⟨List.mem_cons_of_mem _ h1, h2⟩
    · rw [if_neg ha] at h
      rcases List.mem_cons.mp h with h | h
      · subst h
        exact ⟨List.mem_cons_self _ _, ha⟩
      · obtain ⟨h1, h2⟩ := ih _ o h
        refine ⟨List.mem_cons_of_mem _ h1, fun hc => h2 ?_⟩
        exact List.mem_cons_of_mem _ hc

theorem dedupeAux_pairwise :
    ∀ (l : List NormalizedOffer) (seen : List (String × ℚ)),
      (dedupeAux seen l).Pairwise (fun a b => dedupKey a ≠ dedupKey b) := by
  intro l
  induction l with
  | nil =>
    intro seen
    simp [dedupeAux]
  | cons a rest ih =>
    intro seen
    rw [dedupeAux]
    by_cases ha : dedupKey a ∈ seen
    · rw [if_pos ha]
      exact ih seen
    · rw [if_neg ha]
      refine List.Pairwise.cons ?_ (ih _)
      intro b hb
      have h2 := (mem_dedupeAux _ _ _ hb).2
      exact fun hk => h2 (hk ▸ List.mem_cons_self _ _)

theorem dedupeAux_first_seen :
    ∀ (l : List NormalizedOffer) (seen : List (String × ℚ))
      (o : NormalizedOffer),
      o ∈ dedupeAux seen l →
        l.find? (fun p => decide (dedupKey p = dedupKey o)) = some o := by
  intro l
  induction l with
  | nil =>
    intro seen o h
    simp [dedupeAux] at h
  | cons a rest ih =>
    intro seen o h
    rw [dedupeAux] at h
    by_cases ha : dedupKey a ∈ seen
    · rw [if_pos ha] at h
      have h2 := (mem_dedupeAux _ _ _ h).2
      have hne : dedupKey a ≠ dedupKey o := fun hk => h2 (hk ▸ ha)
      rw [List.find?_cons_of_neg _ (by simpa using hne)]
      exact ih seen o h
    · rw [if_neg ha] at h
      rcases List.mem_cons.mp h with h | h
      · subst h
        exact List.find?_cons_of_pos _ (by simp)
      · have h2 := (mem_dedupeAux _ _ _ h).2
        have hne : dedupKey a ≠ dedupKey o := fun hk =>
          h2 (hk ▸ List.mem_cons_self _ _)
        rw [List.find?_cons_of_neg _ (by simpa using hne)]
        exact ih _ o h

theorem dedupeAux_covers :
    ∀ (l : List NormalizedOffer) (seen : List (String × ℚ))
      (o : NormalizedOffer),
      o ∈ l →
        dedupKey o ∈ seen ∨
          ∃ u ∈ dedupeAux seen l, dedupKey u = dedupKey o := by
  intro l
  induction l with
  | nil =>
    intro seen o h
    simp at h
  | cons a rest ih =>
    intro seen o h
    rw [dedupeAux]
    by_cases ha : dedupKey a ∈ seen
    · rw [if_pos ha]
      rcases List.mem_cons.mp h with h | h
      · exact Or.inl (h ▸ ha)
      · exact ih seen o h
    · rw [if_neg ha]
      rcases List.mem_cons.mp h with h | h
      · exact Or.inr ⟨a, List.mem_cons_self _ _, h ▸ rfl⟩
      · rcases ih (dedupKey a :: seen) o h with hs | ⟨u, hu, hku⟩
        · rcases List.mem_cons.mp hs with hs | hs
          · exact Or.inr ⟨a, List.mem_cons_self _ _, hs.symm⟩
          · exact Or.inl hs
        · exact Or.inr ⟨u, List.mem_cons_of_mem _ hu, hku⟩

theorem attrSubScore_mem_unit (a : Option String) (tks : List String) :
    0 ≤ attrSubScore a tks ∧ attrSubScore a tks ≤ 1 := by
  cases a with
  | none => exact ⟨zero_le_one, le_refl 1⟩
  | some v =>
    simp only [attrSubScore]
    split <;> norm_num

theorem deterministicScore_mem_unit (q : QueryAttrs) (title : String) :
    0 ≤ deterministicScore q title ∧ deterministicScore q title ≤ 1 := by
  obtain ⟨hb0, hb1⟩ := attrSubScore_mem_unit q.brand (tokensOf title)
  obtain ⟨hm0, hm1⟩ := attrSubScore_mem_unit q.model (tokensOf title)
  obtain ⟨hs0, hs1⟩ := attrSubScore_mem_unit q.storage (tokensOf title)
  obtain ⟨hc0, hc1⟩ := attrSubScore_mem_unit q.color (tokensOf title)
  unfold deterministicScore
  constructor <;> [positivity; linarith]

theorem matchScore_mem_unit (oracle : String → QueryAttrs → ℚ)
    (q : QueryAttrs) (title : String) :
    0 ≤ matchScore oracle q title ∧ matchScore oracle q title ≤ 1 := by
  simp only [matchScore, clampUnit]
  split_ifs
  · norm_num
  · exact ⟨le_max_left _ _, max_le zero_le_one (min_le_left _ _)⟩
  · exact deterministicScore_mem_unit q title

/-- C4: every offer surviving the Matcher run with the frontend's
configured minimum threshold (min_match_score = 0.4) has a match_score
in [0,1] that is at or above that threshold — no offer below it reaches
the final list. -/
theorem matcher_threshold_invariant :
    ∀ (oracle : String → QueryAttrs → ℚ) (q : QueryAttrs)
      (offers : List NormalizedOffer) (o : NormalizedOffer),
      o ∈ runMatcher oracle q frontendMinMatchScore offers →
        0 ≤ o.match_score ∧ o.match_score ≤ 1 ∧
          frontendMinMatchScore ≤ o.match_score := by
  intro oracle q offers o h
  simp only [runMatcher] at h
  obtain ⟨hmem, hth⟩ := List.mem_filter.mp h
  have hth' : frontendMinMatchScore ≤ o.match_score := by
    simpa using hth
  have hscored := (mem_dedupeAux _ _ _ hmem).1
  obtain ⟨a, _, hao⟩ := List.mem_map.mp hscored
  have hms : o.match_score = matchScore oracle q a.title := by
    rw [← hao]
  obtain ⟨h0, h1⟩ := matchScore_mem_unit oracle q a.title
  exact ⟨hms ▸ h0, hms ▸ h1, hth'⟩

/-- C4 witness: with the trivial oracle, an all-absent query and one
offer, the Matcher passes the offer with score 1, and the main theorem
applies to it. -/
theorem matcher_threshold_invariant_witness :
    ∃ o ∈ runMatcher (fun _ _ => 0) ⟨none, none, none, none⟩
        frontendMinMatchScore
        [⟨"amazon", "", 64999, 0, 500, 64499, some 2, 0, 0⟩],
      0 ≤ o.match_score ∧ o.match_score ≤ 1 ∧
        frontendMinMatchScore ≤ o.match_score := by
  have hscore :
      matchScore (fun _ _ => 0) ⟨none, none, none, none⟩ "" = 1 := by
    have hd : deterministicScore ⟨none, none, none, none⟩ "" = 1 := by
      simp only [deterministicScore, attrSubScore]
      norm_num
    simp only [matchScore, hardReject, isAccessoryTitle, modelMismatch,
      tokensOf, tokenizeAux, hd]
    norm_num
  have hrun :
      runMatcher (fun _ _ => 0) ⟨none, none, none, none⟩
          frontendMinMatchScore
          [⟨"amazon", "", 64999, 0, 500, 64499, some 2, 0, 0⟩] =
        [⟨"amazon", "", 64999, 0, 500, 64499, some 2, 1, 0⟩] := by
    simp only [runMatcher, List.map_cons, List.map_nil, hscore,
      dedupeOffers, dedupeAux, List.not_mem_nil, if_neg, if_false,
      List.filter, frontendMinMatchScore]
    norm_num
  have hmem :
      (⟨"amazon", "", 64999, 0, 500, 64499, some 2, 1, 0⟩ :
          NormalizedOffer) ∈
        runMatcher (fun _ _ => 0) ⟨none, none, none, none⟩
          frontendMinMatchScore
          [⟨"amazon", "", 64999, 0, 500, 64499, some 2, 0, 0⟩] := by
    rw [hrun]
    exact List.mem_singleton.mpr rfl
  exact ⟨_, hmem,
    matcher_threshold_invariant (fun _ _ => 0) ⟨none, none, none, none⟩ _ _ hmem⟩

theorem sortedPrices_perm {l₁ l₂ : List NormalizedOffer} (h : l₁.Perm l₂) :
    sortedPrices l₁ = sortedPrices l₂ := by
  unfold sortedPrices
  exact List.eq_of_perm_of_sorted
    ((List.perm_insertionSort _ _).trans
      ((h.map _).trans (List.perm_insertionSort _ _).symm))
    (List.sorted_insertionSort _ _) (List.sorted_insertionSort _ _)

/-- C6: the Ranker is deterministic and idempotent: re-ranking its own
output changes nothing, the output is sorted by the rank relation, and
that relation is exactly the fixed tie-break chain — higher weighted
score, then higher match_score, then lower effective_price, then earlier
scrape order — leaving no room for randomness. -/
theorem ranker_deterministic_idempotent :
    ∀ (m : Mode) (l : List NormalizedOffer),
      rankOffers m (rankOffers m l) = rankOffers m l ∧
      (rankOffers m l).Sorted (rankRel m (sortedPrices l)) ∧
      (∀ a b : NormalizedOffer,
        rankRel m (sortedPrices l) a b ↔
          (weightedScore m l b < weightedScore m l a ∨
            (weightedScore m l a = weightedScore m l b ∧
              (b.match_score < a.match_score ∨
                (a.match_score = b.match_score ∧
                  (a.effective_price < b.effective_price ∨
                    (a.effective_price = b.effective_price ∧
                      a.scrape_index ≤ b.scrape_index))))))) := by
  intro m l
  haveI htot : IsTotal NormalizedOffer (rankRel m (sortedPrices l)) :=
    ⟨fun a b => le_total _ _⟩
  haveI htr : IsTrans NormalizedOffer (rankRel m (sortedPrices l)) :=
    ⟨fun a b c hab hbc => le_trans hab hbc⟩
  have hsorted : (rankOffers m l).Sorted (rankRel m (sortedPrices l)) :=
    List.sorted_insertionSort _ _
  have hperm : (rankOffers m l).Perm l := List.perm_insertionSort _ _
  refine ⟨?_, hsorted, ?_⟩
  · show (rankOffers m l).insertionSort
        (rankRel m (sortedPrices (rankOffers m l))) = rankOffers m l
    rw [sortedPrices_perm hperm]
    exact List.Sorted.insertionSort_eq hsorted
  · intro a b
    simp only [rankRel, rankKeyWith, weightedScore, Prod.Lex.le_iff,
      neg_lt_neg_iff, neg_inj, Nat.cast_le, Nat.cast_inj]

/-- C7: for a fixed matched set, any two modes produce rankings that are
permutations of each other — the member set of the result never changes
with the mode. -/
theorem ranker_mode_frame :
    ∀ (m₁ m₂ : Mode) (l : List NormalizedOffer),
      (rankOffers m₁ l).Perm (rankOffers m₂ l) ∧
      ∀ o : NormalizedOffer,
        o ∈ rankOffers m₁ l ↔ o ∈ rankOffers m₂ l := by
  intro m₁ m₂ l
  have h₁ : (rankOffers m₁ l).Perm l := List.perm_insertionSort _ _
  have h₂ : (rankOffers m₂ l).Perm l := List.perm_insertionSort _ _
  exact ⟨h₁.trans h₂.symm, fun o => (h₁.trans h₂.symm).mem_iff⟩

/-- C3: in a deduplicated-and-ranked result, no two offers share the
same (platform, effective_price) key; the offer kept for each key is
the first-seen one in scrape order; and every key present before
deduplication is still represented. -/
theorem ranked_dedup_key_unique :
    ∀ (l : List NormalizedOffer) (m : Mode),
      (rankOffers m (dedupeOffers l)).Pairwise
          (fun a b => dedupKey a ≠ dedupKey b) ∧
      (∀ o ∈ dedupeOffers l,
        l.find? (fun p => decide (dedupKey p = dedupKey o)) = some o) ∧
      (∀ o ∈ l, ∃ u ∈ dedupeOffers l, dedupKey u = dedupKey o) := by
  intro l m
  refine ⟨?_, ?_, ?_⟩
  · have hperm : (rankOffers m (dedupeOffers l)).Perm (dedupeOffers l) :=
      List.perm_insertionSort _ _
    have hsym : ∀ {x y : NormalizedOffer},
        dedupKey x ≠ dedupKey y → dedupKey y ≠ dedupKey x :=
      fun h hk => h hk.symm
    exact (hperm.pairwise_iff hsym).mpr (dedupeAux_pairwise l [])
  · intro o ho
    exact dedupeAux_first_seen l [] o ho
  · intro o ho
    rcases dedupeAux_covers l [] o ho with hs | h
    · simp at hs
    · exact h

/-- C3 witness: on the two-element duplicate list, the kept offer is the
first-seen one and the duplicate key stays represented, by the main
theorem. -/
theorem ranked_dedup_key_unique_witness :
    [dupA, dupB].find? (fun p => decide (dedupKey p = dedupKey dupA)) =
        some dupA ∧
      ∃ u ∈ dedupeOffers [dupA, dupB], dedupKey u = dedupKey dupB := by
  have hmemA : dupA ∈ dedupeOffers [dupA, dupB] := by
    rw [dedupeOffers, dedupeAux, if_neg (List.not_mem_nil (dedupKey dupA))]
    exact List.mem_cons_self _ _
  have hmemB : dupB ∈ [dupA, dupB] := by simp
  exact ⟨(ranked_dedup_key_unique [dupA, dupB] Mode.balanced).2.1 dupA hmemA,
    (ranked_dedup_key_unique [dupA, dupB] Mode.balanced).2.2 dupB hmemB⟩
